import Mathlib

/-!
Verification of the candlestick-chart plotter (package `plotter`,
`candlechart.go`) against its specification.

Shallow embedding conventions:
* Go `float64` values are embedded as exact rationals (`ℚ`); float literals
  such as `1.3` stand for the rational `13/10`.  Floating-point rounding is
  outside the scope of this development.
* Fallible Go functions returning `(T, error)` become `Except GoError T`.
* A Go runtime panic (out-of-bounds slice indexing) is embedded as the
  distinguished value `GoError.panic`, kept apart from returned errors.
* The gonum plotting library is an external collaborator: the canvas with
  its clipping, the coordinate transforms obtained from `plt.Transforms`,
  and the default tick generator are parameters of the embedded operations,
  and the draw calls `Plot` performs are reified as a list of `DrawOp`.
* The Go standard library `strconv` (ParseFloat / FormatFloat with zero
  decimal places) is embedded over decimal strings: `parseFloatChars`
  parses the decimal fragment of ParseFloat's syntax (sign, digits,
  optional fraction), and `formatFloat0` formats the nearest integer
  (ties to even, as Go's formatter rounds).
-/

/-- Colors used by the candle chart: `color.Black` and `color.White` of
`image/color` (the only two values the source mentions). -/
inductive GoColor where
  | black
  | white
  deriving DecidableEq, Repr

/-- Errors of the embedded code: `emptyInput` is the `errors.New` value
`NewCandle` returns for zero-length data; `panic` embeds a Go runtime
panic (out-of-bounds indexing), which is not a returned error. -/
inductive GoError where
  | emptyInput (msg : String)
  | panic (msg : String)
  deriving DecidableEq, Repr

/-- The message of the error `NewCandle` returns on empty data. -/
def emptyDataMsg : String := "length of data is 0, must have positive length."

/-- The time-format constants of `candlechart.go`. -/
def FormatSecond : String := "2006-01-02T15:04:05"

/-- Minute format constant. -/
def FormatMinute : String := "2006-01-02T15:04"

/-- Hour format constant. -/
def FormatHour : String := "2006-01-02T15"

/-- Day format constant. -/
def FormatDay : String := "2006-01-02"

/-- Month format constant. -/
def FormatMonth : String := "2006-01"

/-- Year format constant. -/
def FormatYear : String := "2006"

/-- `transFormat2Unit` of `candlechart.go`: the Go `switch` on the format
string, written as the equivalent chain of equality tests, with the
`default` branch returning the empty string. -/
def transFormat2Unit (f : String) : String :=
  if f = FormatSecond then "sec"
  else if f = FormatMinute then "min"
  else if f = FormatHour then "hrs"
  else if f = FormatDay then "day"
  else if f = FormatMonth then "mon"
  else if f = FormatYear then "yr"
  else ""

/-- `BarUnit` of `candlechart.go` (time unit for a candle). -/
structure BarUnit where
  T : ℤ
  Unit : String
  deriving DecidableEq, Repr

/-- `Candle` of `candlechart.go`.  The Go field `end` is a reserved word in
Lean and is embedded as `end_`. -/
structure Candle where
  X : ℚ
  start : ℚ
  end_ : ℚ
  low : ℚ
  high : ℚ
  Color : GoColor
  deriving DecidableEq, Repr

/-- `NewCandle(x, data)` of `candlechart.go`: fails on empty data; start and
end are the first and last samples; the color is black when start > end,
else white; low and high fold `math.Min` / `math.Max` over all samples
starting from `data[0]` (the Go single loop updating both accumulators is
embedded as the two equivalent folds). -/
def NewCandle (x : ℚ) (data : List ℚ) : Except GoError Candle :=
  match data with
  | [] => .error (.emptyInput emptyDataMsg)
  | d :: ds =>
      .ok { X := x
            start := d
            end_ := ds.getLastD d
            low := (d :: ds).foldl min d
            high := (d :: ds).foldl max d
            Color := if d > ds.getLastD d then GoColor.black else GoColor.white }

/- ### Helper lemmas: folds of min/max over a list -/

/-- A fold of `min` composed with a key never exceeds its seed. -/
lemma foldl_minKey_le_init {α : Type} (f : α → ℚ) :
    ∀ (l : List α) (a : ℚ), l.foldl (fun m v => min m (f v)) a ≤ a := by
  intro l
  induction l with
  | nil => intro a; exact le_refl a
  | cons c cs ih =>
      intro a
      exact le_trans (ih (min a (f c))) (min_le_left _ _)

/-- A fold of `min` composed with a key is at most every listed key. -/
lemma foldl_minKey_le_mem {α : Type} (f : α → ℚ) :
    ∀ (l : List α) (a : ℚ) (y : α), y ∈ l → l.foldl (fun m v => min m (f v)) a ≤ f y := by
  intro l
  induction l with
  | nil => intro a y hy; cases hy
  | cons c cs ih =>
      intro a y hy
      rcases List.mem_cons.mp hy with h | h
      · subst h
        exact le_trans (foldl_minKey_le_init f cs (min a (f y))) (min_le_right _ _)
      · exact ih (min a (f c)) y h

/-- A fold of `min` composed with a key equals the seed or some listed key. -/
lemma foldl_minKey_eq_init_or_mem {α : Type} (f : α → ℚ) :
    ∀ (l : List α) (a : ℚ),
      l.foldl (fun m v => min m (f v)) a = a ∨
        ∃ y ∈ l, l.foldl (fun m v => min m (f v)) a = f y := by
  intro l
  induction l with
  | nil => intro a; exact Or.inl rfl
  | cons c cs ih =>
      intro a
      rcases ih (min a (f c)) with h | ⟨y, hy, h⟩
      · rcases min_choice a (f c) with hm | hm
        · exact Or.inl (h.trans hm)
        · exact Or.inr ⟨c, List.mem_cons_self c cs, h.trans hm⟩
      · exact Or.inr ⟨y, List.mem_cons_of_mem c hy, h⟩

/-- A fold of `max` composed with a key is at least its seed. -/
lemma foldl_maxKey_init_le {α : Type} (f : α → ℚ) :
    ∀ (l : List α) (a : ℚ), a ≤ l.foldl (fun m v => max m (f v)) a := by
  intro l
  induction l with
  | nil => intro a; exact le_refl a
  | cons c cs ih =>
      intro a
      exact le_trans (le_max_left _ _) (ih (max a (f c)))

/-- A fold of `max` composed with a key is at least every listed key. -/
lemma foldl_maxKey_mem_le {α : Type} (f : α → ℚ) :
    ∀ (l : List α) (a : ℚ) (y : α), y ∈ l → f y ≤ l.foldl (fun m v => max m (f v)) a := by
  intro l
  induction l with
  | nil => intro a y hy; cases hy
  | cons c cs ih =>
      intro a y hy
      rcases List.mem_cons.mp hy with h | h
      · subst h
        exact le_trans (le_max_right _ _) (foldl_maxKey_init_le f cs (max a (f y)))
      · exact ih (max a (f c)) y h

/-- A fold of `max` composed with a key equals the seed or some listed key. -/
lemma foldl_maxKey_eq_init_or_mem {α : Type} (f : α → ℚ) :
    ∀ (l : List α) (a : ℚ),
      l.foldl (fun m v => max m (f v)) a = a ∨
        ∃ y ∈ l, l.foldl (fun m v => max m (f v)) a = f y := by
  intro l
  induction l with
  | nil => intro a; exact Or.inl rfl
  | cons c cs ih =>
      intro a
      rcases ih (max a (f c)) with h | ⟨y, hy, h⟩
      · rcases max_choice a (f c) with hm | hm
        · exact Or.inl (h.trans hm)
        · exact Or.inr ⟨c, List.mem_cons_self c cs, h.trans hm⟩
      · exact Or.inr ⟨y, List.mem_cons_of_mem c hy, h⟩

/-- The last element of a nonempty list, as `getLast?` sees it. -/
lemma getLast?_cons_eq_getLastD :
    ∀ (ds : List ℚ) (d : ℚ), (d :: ds).getLast? = some (ds.getLastD d) := by
  intro ds
  induction ds with
  | nil => intro d; rfl
  | cons e es ih =>
      intro d
      rw [List.getLast?_cons_cons, ih e, List.getLastD_cons]

/-- Tail of `NewCandles` of `candlechart.go`: Go fills `cs[i]` with
`NewCandle(float64(i), data[i])` for increasing `i` and returns `nil, err`
on the first error; embedded as a recursion carrying the next index `k`. -/
def NewCandlesGo (k : ℕ) : List (List ℚ) → Except GoError (List Candle)
  | [] => .ok []
  | d :: ds =>
      match NewCandle (k : ℚ) d with
      | .error e => .error e
      | .ok c =>
          match NewCandlesGo (k + 1) ds with
          | .error e => .error e
          | .ok cs => .ok (c :: cs)

/-- `NewCandles(data)` of `candlechart.go`. -/
def NewCandles (data : List (List ℚ)) : Except GoError (List Candle) :=
  NewCandlesGo 0 data

/-- `getMax(cs)` of `candlechart.go`: `max := cs[0].high`, then for every
candle `if max < c.high { max = c.high }`.  The unconditional read of
`cs[0]` panics on an empty slice, embedded as `none`. -/
def getMax (cs : List Candle) : Option ℚ :=
  match cs with
  | [] => none
  | c0 :: rest =>
      some ((c0 :: rest).foldl (fun mx c => if mx < c.high then c.high else mx) c0.high)

/-- `getMin(cs)` of `candlechart.go`: `min := cs[0].low`, then for every
candle `if min > c.low { min = c.low }`; panics (`none`) on an empty slice. -/
def getMin (cs : List Candle) : Option ℚ :=
  match cs with
  | [] => none
  | c0 :: rest =>
      some ((c0 :: rest).foldl (fun mn c => if mn > c.low then c.low else mn) c0.low)

/-- `draw.LineStyle`, restricted to the fields `candlechart.go` sets: the
color (`none` embeds the Go zero value of the interface) and the width
(`vg.Points(1)` is the length 1). -/
structure LineStyle where
  color : Option GoColor
  width : ℚ
  deriving DecidableEq, Repr

/-- `CandleChart` of `candlechart.go`.  The embedded `Candles` struct is
flattened into the field `candles`; `GlyphStyle` is omitted (no embedded
operation reads it). `Min` and `Max` cache the global low/high. -/
structure CandleChart where
  candles : List Candle
  CandleStyle : LineStyle
  WhiskerStyle : LineStyle
  Min : ℚ
  Max : ℚ
  deriving DecidableEq, Repr

/-- `NewCandleChart(data)` of `candlechart.go`: builds the candles, then
unconditionally calls `getMin` and `getMax` (which panic on an empty candle
slice) and installs the default styles (`CandleStyle` black of width 1,
`WhiskerStyle` zero color of width 1). -/
def NewCandleChart (data : List (List ℚ)) : Except GoError CandleChart :=
  match NewCandles data with
  | .error e => .error e
  | .ok cs =>
      match getMin cs with
      | none => .error (.panic "index out of range")
      | some mn =>
          match getMax cs with
          | none => .error (.panic "index out of range")
          | some mx =>
              .ok { candles := cs
                    CandleStyle := { color := some GoColor.black, width := 1 }
                    WhiskerStyle := { color := none, width := 1 }
                    Min := mn
                    Max := mx }

/-- A canvas point (`vg.Point`), in canvas coordinates. -/
structure Point where
  x : ℚ
  y : ℚ
  deriving DecidableEq, Repr

/-- The draw calls `Plot` issues against the canvas, reified. -/
inductive DrawOp where
  | fillPolygon (c : GoColor) (poly : List Point)
  | strokeLines (style : LineStyle) (lines : List (List Point))
  deriving DecidableEq, Repr

/-- The canvas capability (`draw.Canvas`) as the renderer uses it: clipping
of a polygon, and of line paths, against the canvas's visible Y extent.
The clipping algorithms live in the external gonum library. -/
structure Canvas where
  clipPolygonY : List Point → List Point
  clipLinesY : List (List Point) → List (List Point)

/-- A canvas whose visible Y extent contains all the drawn geometry, so
both clip operations are the identity. -/
def idCanvas : Canvas :=
  { clipPolygonY := fun pts => pts
    clipLinesY := fun ls => ls }

/-- The body of the per-candle loop of `CandleChart.Plot`: the transformed
x, low and high; `q1`/`q3` the transformed body bottom/top (orientation
normalized by the `start < end` test); the five-point body path (the fifth
point closes it, offset by half the outline width); then, in order, the
clipped body fill, the clipped body outline stroke, and the four clipped
whisker segments. -/
def plotCandle (c : Canvas) (candleStyle whiskerStyle : LineStyle)
    (trX trY : ℚ → ℚ) (w : ℚ) (candle : Candle) : List DrawOp :=
  let x := trX candle.X
  let l := trY candle.low
  let h := trY candle.high
  let qs := if candle.start < candle.end_ then (trY candle.start, trY candle.end_)
            else (trY candle.end_, trY candle.start)
  let q1 := qs.1
  let q3 := qs.2
  let pts : List Point :=
    [ Point.mk (x - w / 2) q1
    , Point.mk (x - w / 2) q3
    , Point.mk (x + w / 2) q3
    , Point.mk (x + w / 2) q1
    , Point.mk (x - w / 2 - candleStyle.width / 2) q1 ]
  let poly := c.clipPolygonY pts
  let box := c.clipLinesY [pts]
  let whisks := c.clipLinesY
    [ [Point.mk x q3, Point.mk x h]
    , [Point.mk x h, Point.mk x h]
    , [Point.mk x q1, Point.mk x l]
    , [Point.mk x l, Point.mk x l] ]
  [ DrawOp.fillPolygon candle.Color poly
  , DrawOp.strokeLines candleStyle box
  , DrawOp.strokeLines whiskerStyle whisks ]

/-- `CandleChart.Plot` of `candlechart.go`: returns at once (no draw call)
when there are fewer than two candles; otherwise derives the shared width
`w` from the transformed distance of the first two candles' X positions and
draws every candle.  The transforms `trX`, `trY` stand for
`plt.Transforms(&c)` of the external plot object. -/
def CandleChart.Plot (cc : CandleChart) (c : Canvas) (trX trY : ℚ → ℚ) : List DrawOp :=
  match cc.candles with
  | c0 :: c1 :: _ =>
      let w := trX c1.X - trX c0.X
      cc.candles.flatMap (plotCandle c cc.CandleStyle cc.WhiskerStyle trX trY w)
  | _ => []

/-- `CandleChart.DataRange` of `candlechart.go`: the Go float literal `1.3`
is embedded as the rational `13/10`. -/
def CandleChart.DataRange (cc : CandleChart) : ℚ × ℚ × ℚ × ℚ :=
  (0, (cc.candles.length : ℚ) * (13 / 10), cc.Min, cc.Max)

/- ### The strconv model: the decimal fragment of ParseFloat, and
FormatFloat with zero decimal places (`'f', 0, 64`).  strconv is Go
standard library, an external collaborator of the core. -/

/-- The decimal digit characters. -/
def digitChar (n : ℕ) : Char :=
  match n with
  | 0 => '0' | 1 => '1' | 2 => '2' | 3 => '3' | 4 => '4'
  | 5 => '5' | 6 => '6' | 7 => '7' | 8 => '8' | _ => '9'

/-- The value of a decimal digit character, `none` for any other char. -/
def digitVal (c : Char) : Option ℕ :=
  if '0' ≤ c ∧ c ≤ '9' then some (c.toNat - '0'.toNat) else none

/-- Reads a run of decimal digits into an accumulator; `none` as soon as a
non-digit appears (the whole run must be digits). -/
def parseDigitsAcc (acc : ℕ) : List Char → Option ℕ
  | [] => some acc
  | c :: cs =>
      match digitVal c with
      | some d => parseDigitsAcc (10 * acc + d) cs
      | none => none

/-- The unsigned decimal fragment of ParseFloat: digits with an optional
single dot and fractional digits; at least one digit in total. -/
def parseUnsigned (l : List Char) : Option ℚ :=
  let ip := l.takeWhile (fun c => c != '.')
  match l.dropWhile (fun c => c != '.') with
  | [] =>
      if ip.isEmpty then none
      else (parseDigitsAcc 0 ip).map (fun n => (n : ℚ))
  | _ :: fp =>
      if ip.isEmpty && fp.isEmpty then none
      else
        match parseDigitsAcc 0 ip, parseDigitsAcc 0 fp with
        | some a, some b => some ((a : ℚ) + (b : ℚ) / 10 ^ fp.length)
        | _, _ => none

/-- The decimal fragment of ParseFloat over a char list: optional sign,
then the unsigned part. -/
def parseFloatChars (l : List Char) : Option ℚ :=
  match l with
  | [] => none
  | c :: rest =>
      if c = '-' then (parseUnsigned rest).map (fun q => -q)
      else if c = '+' then parseUnsigned rest
      else parseUnsigned (c :: rest)

/-- `strconv.ParseFloat` as `Ticks` uses it: `s, _ := strconv.ParseFloat(...)`
discards the error, so a failed parse leaves the zero value `0`. -/
def parseFloatGo (s : String) : ℚ :=
  (parseFloatChars s.data).getD 0

/-- Decimal digits of `n`, most significant first, by fuel recursion
(`natToDigits` supplies sufficient fuel). -/
def natToDigitsGo : ℕ → ℕ → List Char
  | 0, _ => []
  | f + 1, n =>
      if n < 10 then [digitChar n]
      else natToDigitsGo f (n / 10) ++ [digitChar (n % 10)]

/-- Decimal digits of `n`, most significant first. -/
def natToDigits (n : ℕ) : List Char := natToDigitsGo (n + 1) n

/-- Decimal rendering of an integer. -/
def intToString (z : ℤ) : String :=
  if z < 0 then String.mk ('-' :: natToDigits z.natAbs)
  else String.mk (natToDigits z.natAbs)

/-- Floor of a rational (numerator floor-divided by denominator). -/
def ratFloor (q : ℚ) : ℤ := Int.fdiv q.num q.den

/-- Round to the nearest integer, ties to even (Go's FormatFloat rounding). -/
def roundEven (q : ℚ) : ℤ :=
  let fl := ratFloor q
  let frac := q - (fl : ℚ)
  if frac < 1 / 2 then fl
  else if 1 / 2 < frac then fl + 1
  else if fl % 2 = 0 then fl
  else fl + 1

/-- `strconv.FormatFloat(s, 'f', 0, 64)`: the value rendered with zero
decimal places, i.e. its nearest integer in decimal. -/
def formatFloat0 (q : ℚ) : String := intToString (roundEven q)

/-- `plot.Tick` of the gonum library: a position and a label (empty label
for minor ticks). -/
structure Tick where
  Value : ℚ
  Label : String
  deriving DecidableEq, Repr

/-- The per-tick label rewrite of `rawTicks.Ticks`: a tick with an empty
label is skipped (minor tick), any other label is reparsed as a float and
reformatted with zero decimal places. -/
def processTick (t : Tick) : Tick :=
  if t.Label = "" then t
  else { t with Label := formatFloat0 (parseFloatGo t.Label) }

/-- `rawTicks.Ticks` of `candlechart.go`: delegates to the default tick
generator (`plot.DefaultTicks{}.Ticks`, an external capability passed as
`defaultTicks`) and rewrites the labels in place. -/
def rawTicks.Ticks (defaultTicks : ℚ → ℚ → List Tick) (mn mx : ℚ) : List Tick :=
  (defaultTicks mn mx).map processTick

/- ### Claim theorems -/

/-- C1: for every x and non-empty data, `NewCandle(x, data)` returns a
Candle whose start is `data[0]`, end is `data[len-1]`, low is the minimum
and high the maximum over all elements; it errors exactly when data is
empty. -/
theorem NewCandle_spec (x : ℚ) (data : List ℚ) :
    (data = [] → NewCandle x data = .error (.emptyInput emptyDataMsg)) ∧
    (data ≠ [] →
      ∃ c, NewCandle x data = .ok c ∧
        data.head? = some c.start ∧
        data.getLast? = some c.end_ ∧
        c.low ∈ data ∧ (∀ y ∈ data, c.low ≤ y) ∧
        c.high ∈ data ∧ (∀ y ∈ data, y ≤ c.high)) := by
  constructor
  · rintro rfl; rfl
  · intro hne
    cases data with
    | nil => exact absurd rfl hne
    | cons d ds =>
        refine ⟨_, rfl, rfl, getLast?_cons_eq_getLastD ds d, ?_, ?_, ?_, ?_⟩
        · rcases foldl_minKey_eq_init_or_mem id (d :: ds) d with h | ⟨y, hy, h⟩
          · show (d :: ds).foldl (fun m v => min m (id v)) d ∈ d :: ds
            rw [h]
            exact List.mem_cons_self d ds
          · show (d :: ds).foldl (fun m v => min m (id v)) d ∈ d :: ds
            rw [h]
            exact hy
        · intro y hy
          exact foldl_minKey_le_mem id (d :: ds) d y hy
        · rcases foldl_maxKey_eq_init_or_mem id (d :: ds) d with h | ⟨y, hy, h⟩
          · show (d :: ds).foldl (fun m v => max m (id v)) d ∈ d :: ds
            rw [h]
            exact List.mem_cons_self d ds
          · show (d :: ds).foldl (fun m v => max m (id v)) d ∈ d :: ds
            rw [h]
            exact hy
        · intro y hy
          exact foldl_maxKey_mem_le id (d :: ds) d y hy

/-- Witness for C1 at `x = 0`, `data = [3, 1, 2]`. -/
theorem NewCandle_spec_witness :
    ∃ c, NewCandle 0 [(3 : ℚ), 1, 2] = .ok c ∧
      [(3 : ℚ), 1, 2].head? = some c.start ∧
      [(3 : ℚ), 1, 2].getLast? = some c.end_ ∧
      c.low ∈ [(3 : ℚ), 1, 2] ∧ (∀ y ∈ [(3 : ℚ), 1, 2], c.low ≤ y) ∧
      c.high ∈ [(3 : ℚ), 1, 2] ∧ (∀ y ∈ [(3 : ℚ), 1, 2], y ≤ c.high) :=
  (NewCandle_spec 0 [3, 1, 2]).2 (by decide)

/-- C6: the direction of a constructed candle is down (black fill) exactly
when open > close, strictly; otherwise (including equality) it is up
(white fill). -/
theorem NewCandle_color_spec (x : ℚ) (data : List ℚ) (c : Candle)
    (h : NewCandle x data = .ok c) :
    (c.Color = GoColor.black ↔ c.start > c.end_) ∧
    (c.Color = GoColor.white ↔ ¬ c.start > c.end_) := by
  cases data with
  | nil => exact absurd h (by simp [NewCandle])
  | cons d ds =>
      rw [NewCandle] at h
      injection h with h
      subst h
      by_cases hd : d > ds.getLastD d <;> simp [hd]

/-- Witness for C6 at `data = [2, 1]` (a down period: open 2, close 1). -/
theorem NewCandle_color_witness :
    ((Candle.mk 0 2 1 1 2 GoColor.black).Color = GoColor.black ↔
        (Candle.mk 0 2 1 1 2 GoColor.black).start > (Candle.mk 0 2 1 1 2 GoColor.black).end_) ∧
    ((Candle.mk 0 2 1 1 2 GoColor.black).Color = GoColor.white ↔
        ¬ (Candle.mk 0 2 1 1 2 GoColor.black).start >
            (Candle.mk 0 2 1 1 2 GoColor.black).end_) :=
  NewCandle_color_spec 0 [2, 1] (Candle.mk 0 2 1 1 2 GoColor.black) (by rfl)

/-- The X field of a constructed candle is the position argument. -/
lemma NewCandle_X (x : ℚ) (p : List ℚ) (c : Candle)
    (h : NewCandle x p = .ok c) : c.X = x := by
  cases p with
  | nil => exact absurd h (by simp [NewCandle])
  | cons e es =>
      rw [NewCandle] at h
      injection h with h
      subst h
      rfl

/-- The candle builder loop errors as soon as some period is empty. -/
lemma NewCandlesGo_err :
    ∀ (data : List (List ℚ)) (k : ℕ), (∃ p ∈ data, p = []) →
      NewCandlesGo k data = .error (.emptyInput emptyDataMsg) := by
  intro data
  induction data with
  | nil =>
      intro k h
      rcases h with ⟨p, hp, _⟩
      cases hp
  | cons d ds ih =>
      intro k h
      cases d with
      | nil => rfl
      | cons e es =>
          have hmem : ∃ p ∈ ds, p = [] := by
            rcases h with ⟨p, hp, hpe⟩
            rcases List.mem_cons.mp hp with rfl | hm
            · exact absurd hpe (by simp)
            · exact ⟨p, hm, hpe⟩
          simp only [NewCandlesGo, NewCandle]
          rw [ih (k + 1) hmem]

/-- The candle builder loop succeeds on all-non-empty periods, producing
one candle per period, in order, built at positions `k, k+1, ...`. -/
lemma NewCandlesGo_ok :
    ∀ (data : List (List ℚ)) (k : ℕ), (∀ p ∈ data, p ≠ []) →
      ∃ cs, NewCandlesGo k data = .ok cs ∧ cs.length = data.length ∧
        ∀ (i : ℕ) (p : List ℚ), data[i]? = some p →
          ∃ c, cs[i]? = some c ∧ NewCandle ((k + i : ℕ) : ℚ) p = .ok c := by
  intro data
  induction data with
  | nil =>
      intro k _
      refine ⟨[], rfl, rfl, ?_⟩
      intro i p hp
      simp at hp
  | cons d ds ih =>
      intro k h
      obtain ⟨cs, hcs, hlen, hidx⟩ := ih (k + 1) (fun p hp => h p (List.mem_cons_of_mem d hp))
      cases d with
      | nil => exact absurd rfl (h [] (List.mem_cons_self _ _))
      | cons e es =>
          obtain ⟨c0, hc0⟩ : ∃ c0, NewCandle (k : ℚ) (e :: es) = .ok c0 := ⟨_, rfl⟩
          refine ⟨c0 :: cs, ?_, ?_, ?_⟩
          · simp only [NewCandlesGo]
            rw [hc0, hcs]
          · simpa using hlen
          · intro i p hp
            cases i with
            | zero =>
                simp only [List.getElem?_cons_zero, Option.some.injEq] at hp
                subst hp
                exact ⟨c0, by simp, hc0⟩
            | succ i =>
                simp only [List.getElem?_cons_succ] at hp
                obtain ⟨c, hc1, hc2⟩ := hidx i p hp
                refine ⟨c, by simpa using hc1, ?_⟩
                rw [show k + (i + 1) = k + 1 + i by omega]
                exact hc2

/-- C2 counterexample: `NewCandles` of the empty outer list does not fail;
it succeeds with an empty candle slice. -/
theorem NewCandles_nil_ok : NewCandles ([] : List (List ℚ)) = .ok [] := rfl

/-- C2 (amended): `NewCandles` fails with `EmptyInput` exactly on a list
containing an empty period (propagating the first such error); over the
empty list, and over all-non-empty periods, it never fails and builds one
candle per period in order with position `float(i)`. -/
theorem NewCandles_spec (data : List (List ℚ)) :
    ((∃ p ∈ data, p = []) →
        NewCandles data = .error (.emptyInput emptyDataMsg)) ∧
    ((∀ p ∈ data, p ≠ []) →
      ∃ cs, NewCandles data = .ok cs ∧ cs.length = data.length ∧
        ∀ (i : ℕ) (p : List ℚ), data[i]? = some p →
          ∃ c, cs[i]? = some c ∧ c.X = (i : ℚ) ∧ NewCandle (i : ℚ) p = .ok c) := by
  constructor
  · exact fun h => NewCandlesGo_err data 0 h
  · intro h
    obtain ⟨cs, h1, h2, h3⟩ := NewCandlesGo_ok data 0 h
    refine ⟨cs, h1, h2, ?_⟩
    intro i p hp
    obtain ⟨c, hc1, hc2⟩ := h3 i p hp
    have hcast : ((0 + i : ℕ) : ℚ) = (i : ℚ) := by norm_num
    rw [hcast] at hc2
    exact ⟨c, hc1, NewCandle_X _ _ _ hc2, hc2⟩

/-- Witness for C2 at `data = [[1, 2], [3]]`. -/
theorem NewCandles_spec_witness :
    ∃ cs, NewCandles [[(1 : ℚ), 2], [3]] = .ok cs ∧
      cs.length = [[(1 : ℚ), 2], [3]].length ∧
      ∀ (i : ℕ) (p : List ℚ), [[(1 : ℚ), 2], [3]][i]? = some p →
        ∃ c, cs[i]? = some c ∧ c.X = (i : ℚ) ∧ NewCandle (i : ℚ) p = .ok c :=
  (NewCandles_spec [[1, 2], [3]]).2 (by decide)

/-- The conditional update of the `getMin` loop is the binary minimum. -/
lemma minStep_eq :
    (fun (mn : ℚ) (c : Candle) => if mn > c.low then c.low else mn) =
      fun m c => min m c.low := by
  funext m c
  rcases le_or_lt m c.low with h | h
  · rw [if_neg (not_lt.mpr h), min_eq_left h]
  · rw [if_pos h, min_eq_right h.le]

/-- The conditional update of the `getMax` loop is the binary maximum. -/
lemma maxStep_eq :
    (fun (mx : ℚ) (c : Candle) => if mx < c.high then c.high else mx) =
      fun m c => max m c.high := by
  funext m c
  rcases lt_or_le m c.high with h | h
  · rw [if_pos h, max_eq_right h.le]
  · rw [if_neg (not_lt.mpr h), max_eq_left h]

/-- `getMin` on a nonempty slice returns the minimum of the lows: a value
attained by some candle and at most every candle's low. -/
lemma getMin_spec (cs : List Candle) (m : ℚ) (h : getMin cs = some m) :
    (∃ c ∈ cs, m = c.low) ∧ ∀ c ∈ cs, m ≤ c.low := by
  cases cs with
  | nil => cases h
  | cons c0 rest =>
      rw [getMin] at h
      injection h with h
      subst h
      rw [minStep_eq]
      constructor
      · rcases foldl_minKey_eq_init_or_mem Candle.low (c0 :: rest) c0.low with h | ⟨y, hy, h⟩
        · exact ⟨c0, List.mem_cons_self c0 rest, h⟩
        · exact ⟨y, hy, h⟩
      · intro c hc
        exact foldl_minKey_le_mem Candle.low (c0 :: rest) c0.low c hc

/-- `getMax` on a nonempty slice returns the maximum of the highs. -/
lemma getMax_spec (cs : List Candle) (m : ℚ) (h : getMax cs = some m) :
    (∃ c ∈ cs, m = c.high) ∧ ∀ c ∈ cs, c.high ≤ m := by
  cases cs with
  | nil => cases h
  | cons c0 rest =>
      rw [getMax] at h
      injection h with h
      subst h
      rw [maxStep_eq]
      constructor
      · rcases foldl_maxKey_eq_init_or_mem Candle.high (c0 :: rest) c0.high with h | ⟨y, hy, h⟩
        · exact ⟨c0, List.mem_cons_self c0 rest, h⟩
        · exact ⟨y, hy, h⟩
      · intro c hc
        exact foldl_maxKey_mem_le Candle.high (c0 :: rest) c0.high c hc

/-- Inversion of a successful `NewCandleChart`: the candles come from
`NewCandles`, and `Min`/`Max` are the cached results of `getMin`/`getMax`. -/
lemma NewCandleChart_ok_inv (data : List (List ℚ)) (cc : CandleChart)
    (h : NewCandleChart data = .ok cc) :
    NewCandles data = .ok cc.candles ∧
      getMin cc.candles = some cc.Min ∧ getMax cc.candles = some cc.Max := by
  cases hnc : NewCandles data with
  | error e =>
      simp only [NewCandleChart, hnc] at h
      exact absurd h (by simp)
  | ok cs =>
      cases hmn : getMin cs with
      | none =>
          simp only [NewCandleChart, hnc, hmn] at h
          exact absurd h (by simp)
      | some mn =>
          cases hmx : getMax cs with
          | none =>
              simp only [NewCandleChart, hnc, hmn, hmx] at h
              exact absurd h (by simp)
          | some mx =>
              simp only [NewCandleChart, hnc, hmn, hmx, Except.ok.injEq] at h
              subst h
              exact ⟨rfl, hmn, hmx⟩

/-- C3: for a successfully constructed chart, `DataRange` returns exactly
xmin = 0, xmax = 1.3 times the candle count, ymin the minimum low and ymax
the maximum high over all candles. -/
theorem DataRange_spec (data : List (List ℚ)) (cc : CandleChart)
    (h : NewCandleChart data = .ok cc) :
    cc.DataRange.1 = 0 ∧
    cc.DataRange.2.1 = (cc.candles.length : ℚ) * (13 / 10) ∧
    (∃ c ∈ cc.candles, cc.DataRange.2.2.1 = c.low) ∧
    (∀ c ∈ cc.candles, cc.DataRange.2.2.1 ≤ c.low) ∧
    (∃ c ∈ cc.candles, cc.DataRange.2.2.2 = c.high) ∧
    (∀ c ∈ cc.candles, c.high ≤ cc.DataRange.2.2.2) := by
  obtain ⟨-, hmn, hmx⟩ := NewCandleChart_ok_inv data cc h
  obtain ⟨hmem, hbd⟩ := getMin_spec cc.candles cc.Min hmn
  obtain ⟨hmem2, hbd2⟩ := getMax_spec cc.candles cc.Max hmx
  exact ⟨rfl, rfl, hmem, hbd, hmem2, hbd2⟩

/-- The chart built from `[[1, 2], [3]]`. -/
def demoChart : CandleChart :=
  { candles := [Candle.mk 0 1 2 1 2 GoColor.white, Candle.mk 1 3 3 3 3 GoColor.white]
    CandleStyle := { color := some GoColor.black, width := 1 }
    WhiskerStyle := { color := none, width := 1 }
    Min := 1
    Max := 3 }

/-- Witness for C3 at `data = [[1, 2], [3]]`. -/
theorem DataRange_spec_witness :
    demoChart.DataRange.1 = 0 ∧
    demoChart.DataRange.2.1 = (demoChart.candles.length : ℚ) * (13 / 10) ∧
    (∃ c ∈ demoChart.candles, demoChart.DataRange.2.2.1 = c.low) ∧
    (∀ c ∈ demoChart.candles, demoChart.DataRange.2.2.1 ≤ c.low) ∧
    (∃ c ∈ demoChart.candles, demoChart.DataRange.2.2.2 = c.high) ∧
    (∀ c ∈ demoChart.candles, c.high ≤ demoChart.DataRange.2.2.2) :=
  DataRange_spec [[1, 2], [3]] demoChart (by rfl)

/-- C9: `NewCandleChart` of the empty outer list does not return
`EmptyInput`: `NewCandles` succeeds with an empty slice, and `getMin` /
`getMax` then read element 0 of that empty slice out of bounds — a runtime
panic (embedded as `GoError.panic`), not a returned error. -/
theorem NewCandleChart_empty_panics :
    NewCandleChart [] = .error (.panic "index out of range") ∧
    NewCandles ([] : List (List ℚ)) = .ok [] ∧
    getMin [] = none ∧ getMax [] = none :=
  ⟨rfl, rfl, rfl, rfl⟩

/-- C5: with fewer than two candles, `Plot` performs zero draw calls. -/
theorem Plot_fewer_than_two_no_draws (cc : CandleChart) (c : Canvas)
    (trX trY : ℚ → ℚ) (h : cc.candles.length < 2) :
    cc.Plot c trX trY = [] := by
  unfold CandleChart.Plot
  rcases hc : cc.candles with - | ⟨c0, - | ⟨c1, rest⟩⟩
  · rfl
  · rfl
  · rw [hc] at h
    simp only [List.length_cons] at h
    omega

/-- A one-candle chart (the chart built from `[[5]]`). -/
def oneCandleChart : CandleChart :=
  { candles := [Candle.mk 0 5 5 5 5 GoColor.white]
    CandleStyle := { color := some GoColor.black, width := 1 }
    WhiskerStyle := { color := none, width := 1 }
    Min := 5
    Max := 5 }

/-- Witness for C5 on the one-candle chart. -/
theorem Plot_fewer_than_two_witness :
    oneCandleChart.Plot idCanvas (fun p => p) (fun v => v) = [] :=
  Plot_fewer_than_two_no_draws oneCandleChart idCanvas (fun p => p) (fun v => v) (by decide)

/-- The two-period scenario of the spec: `[[10,12,9,11], [11,10,13,9]]`. -/
def demoData : List (List ℚ) := [[10, 12, 9, 11], [11, 10, 13, 9]]

/-- The scenario transform for positions: `p ↦ 100 p`. -/
def demoTrX (p : ℚ) : ℚ := 100 * p

/-- The scenario transform for prices: `v ↦ 200 - 10 v`. -/
def demoTrY (v : ℚ) : ℚ := 200 - 10 * v

/-- The chart built from `demoData`. -/
def demoChart2 : CandleChart :=
  { candles := [Candle.mk 0 10 11 9 12 GoColor.white, Candle.mk 1 11 9 9 13 GoColor.black]
    CandleStyle := { color := some GoColor.black, width := 1 }
    WhiskerStyle := { color := none, width := 1 }
    Min := 9
    Max := 13 }

/-- The draw calls of the scenario: `Plot` on the chart built from
`demoData`, on a canvas that clips nothing, with the scenario transforms. -/
def demoPlotOps : List DrawOp :=
  match NewCandleChart demoData with
  | .ok cc => cc.Plot idCanvas demoTrX demoTrY
  | .error _ => []

/-- The scenario chart is what `NewCandleChart` builds from `demoData`. -/
lemma NewCandleChart_demoData : NewCandleChart demoData = .ok demoChart2 := by rfl

/-- C4 counterexample: in the spec's scenario, the body rectangle of
candle 0 does not span canvas X `[95, 105]` centered at `x = 100`: the
first draw call fills the body polygon whose corner X coordinates are
`-50` and `50` (candle 0 sits at position 0, so its transformed center is
`trX(0) = 0`), and `-50 ≠ 95`, `50 ≠ 105`, `0 ≠ 100`. -/
theorem Plot_scenario_cex :
    demoPlotOps.head? = some (DrawOp.fillPolygon GoColor.white
      [Point.mk (-50) 100, Point.mk (-50) 90, Point.mk 50 90,
       Point.mk 50 100, Point.mk (-101 / 2) 100]) ∧
    ((-50 : ℚ) ≠ 95 ∧ (50 : ℚ) ≠ 105 ∧ demoTrX 0 ≠ 100) := by
  constructor
  · simp only [demoPlotOps, NewCandleChart_demoData]
    norm_num [CandleChart.Plot, demoChart2, plotCandle, idCanvas, demoTrX, demoTrY,
      Point.mk.injEq]
  · refine ⟨by norm_num, by norm_num, by norm_num [demoTrX]⟩

/-- C4 (amended): in the spec's scenario the derived width is
`trX(1) - trX(0) = 100`, candle 0 is at position 0 so its body is centered
at `trX(0) = 0` and spans canvas X `[-50, 50]`; the Y bounds are
`trY(11) = 90` (top, since close > open) and `trY(10) = 100` (bottom), as
the claim states. -/
theorem Plot_scenario_amended :
    demoTrX 1 - demoTrX 0 = 100 ∧ demoTrX 0 = 0 ∧
    demoTrY 11 = 90 ∧ demoTrY 10 = 100 ∧
    demoPlotOps.head? = some (DrawOp.fillPolygon GoColor.white
      [Point.mk (-50) 100, Point.mk (-50) 90, Point.mk 50 90,
       Point.mk 50 100, Point.mk (-101 / 2) 100]) := by
  refine ⟨by norm_num [demoTrX], by norm_num [demoTrX],
    by norm_num [demoTrY], by norm_num [demoTrY], ?_⟩
  simp only [demoPlotOps, NewCandleChart_demoData]
  norm_num [CandleChart.Plot, demoChart2, plotCandle, idCanvas, demoTrX, demoTrY,
    Point.mk.injEq]

/-- C8: the bar-unit abbreviation mapping sends the six format-string
granularities (second, minute, hour, day, month, year) to "sec", "min",
"hrs", "day", "mon", "yr" respectively, and every other string to "". -/
theorem transFormat2Unit_spec (s : String) :
    transFormat2Unit FormatSecond = "sec" ∧
    transFormat2Unit FormatMinute = "min" ∧
    transFormat2Unit FormatHour = "hrs" ∧
    transFormat2Unit FormatDay = "day" ∧
    transFormat2Unit FormatMonth = "mon" ∧
    transFormat2Unit FormatYear = "yr" ∧
    (s ∉ [FormatSecond, FormatMinute, FormatHour, FormatDay, FormatMonth, FormatYear] →
      transFormat2Unit s = "") := by
  refine ⟨by rfl, by rfl, by rfl, by rfl, by rfl, by rfl, ?_⟩
  intro h
  simp only [List.mem_cons, List.not_mem_nil, or_false, not_or] at h
  obtain ⟨h1, h2, h3, h4, h5, h6⟩ := h
  rw [transFormat2Unit, if_neg h1, if_neg h2, if_neg h3, if_neg h4, if_neg h5, if_neg h6]

/-- Witness for C8: the unrecognized unit string "week" maps to "". -/
theorem transFormat2Unit_witness :
    "week" ∉ [FormatSecond, FormatMinute, FormatHour, FormatDay, FormatMonth, FormatYear] ∧
    transFormat2Unit "week" = "" :=
  ⟨by decide, (transFormat2Unit_spec "week").2.2.2.2.2.2 (by decide)⟩

/- ### Round-trip lemmas for the strconv model -/

/-- Digit characters parse back to their value. -/
lemma digitVal_digitChar : ∀ d, d < 10 → digitVal (digitChar d) = some d := by decide

/-- Digit characters are not a dot or a sign. -/
lemma digitChar_not_special :
    ∀ d, d < 10 →
      (digitChar d != '.') = true ∧ digitChar d ≠ '-' ∧ digitChar d ≠ '+' := by decide

/-- Splitting a digit run over an append. -/
lemma parseDigitsAcc_append :
    ∀ (l1 l2 : List Char) (acc : ℕ),
      parseDigitsAcc acc (l1 ++ l2) =
        (parseDigitsAcc acc l1).bind (fun v => parseDigitsAcc v l2) := by
  intro l1
  induction l1 with
  | nil => intro l2 acc; rfl
  | cons c cs ih =>
      intro l2 acc
      simp only [List.cons_append, parseDigitsAcc]
      cases digitVal c with
      | none => rfl
      | some d => exact ih l2 (10 * acc + d)

/-- With enough fuel, the digits of `n` parse back to `n` (shifted onto the
accumulator). -/
lemma parseDigitsAcc_natToDigitsGo :
    ∀ (f n : ℕ), n < f → ∀ (acc : ℕ),
      parseDigitsAcc acc (natToDigitsGo f n) =
        some (acc * 10 ^ (natToDigitsGo f n).length + n) := by
  intro f
  induction f with
  | zero => intro n hn; omega
  | succ f ih =>
      intro n hn acc
      by_cases h10 : n < 10
      · simp only [natToDigitsGo, if_pos h10, parseDigitsAcc, digitVal_digitChar n h10,
          List.length_cons, List.length_nil, Nat.zero_add]
        congr 1
        rw [pow_one]
        ring
      · have hdiv : n / 10 < n := Nat.div_lt_self (by omega) (by omega)
        have hf : n / 10 < f := by omega
        have hmod : n % 10 < 10 := Nat.mod_lt n (by omega)
        simp only [natToDigitsGo, if_neg h10]
        rw [parseDigitsAcc_append, ih (n / 10) hf acc]
        simp only [Option.bind, parseDigitsAcc, digitVal_digitChar (n % 10) hmod,
          List.length_append, List.length_cons, List.length_nil, Nat.zero_add]
        congr 1
        have hdm : 10 * (n / 10) + n % 10 = n := Nat.div_add_mod n 10
        calc 10 * (acc * 10 ^ (natToDigitsGo f (n / 10)).length + n / 10) + n % 10
            = acc * (10 ^ (natToDigitsGo f (n / 10)).length * 10) +
                (10 * (n / 10) + n % 10) := by ring
          _ = acc * 10 ^ ((natToDigitsGo f (n / 10)).length + 1) + n := by
                rw [hdm, pow_succ]

/-- Every character the digit renderer emits is a digit character. -/
lemma natToDigitsGo_digits :
    ∀ (f n : ℕ), n < f → ∀ c ∈ natToDigitsGo f n, ∃ d, d < 10 ∧ c = digitChar d := by
  intro f
  induction f with
  | zero => intro n hn; omega
  | succ f ih =>
      intro n hn c hc
      by_cases h10 : n < 10
      · rw [natToDigitsGo, if_pos h10] at hc
        rcases List.mem_singleton.mp hc with rfl
        exact ⟨n, h10, rfl⟩
      · rw [natToDigitsGo, if_neg h10] at hc
        rcases List.mem_append.mp hc with h | h
        · have hdiv : n / 10 < n := Nat.div_lt_self (by omega) (by omega)
          exact ih (n / 10) (by omega) c h
        · rcases List.mem_singleton.mp h with rfl
          exact ⟨n % 10, Nat.mod_lt n (by omega), rfl⟩

/-- The digit renderer never emits an empty list. -/
lemma natToDigitsGo_ne_nil :
    ∀ (f n : ℕ), n < f → natToDigitsGo f n ≠ [] := by
  intro f
  induction f with
  | zero => intro n hn; omega
  | succ f _ =>
      intro n _
      by_cases h10 : n < 10
      · rw [natToDigitsGo, if_pos h10]
        exact List.cons_ne_nil _ _
      · rw [natToDigitsGo, if_neg h10]
        simp

/-- Digit strings parse back through the unsigned decimal parser. -/
lemma parseUnsigned_natToDigits (n : ℕ) :
    parseUnsigned (natToDigits n) = some ((n : ℚ)) := by
  have hlt : n < n + 1 := Nat.lt_succ_self n
  have hdig : ∀ c ∈ natToDigits n, ∃ d, d < 10 ∧ c = digitChar d :=
    natToDigitsGo_digits (n + 1) n hlt
  have hne : natToDigits n ≠ [] := natToDigitsGo_ne_nil (n + 1) n hlt
  have hnotdot : ∀ c ∈ natToDigits n, (fun c => c != '.') c = true := by
    intro c hc
    obtain ⟨d, hd, rfl⟩ := hdig c hc
    exact (digitChar_not_special d hd).1
  have htake : (natToDigits n).takeWhile (fun c => c != '.') = natToDigits n :=
    List.takeWhile_eq_self_iff.mpr hnotdot
  have hdrop : (natToDigits n).dropWhile (fun c => c != '.') = [] :=
    List.dropWhile_eq_nil_iff.mpr hnotdot
  have hemp : (natToDigits n).isEmpty = false := List.isEmpty_eq_false.mpr hne
  have hparse : parseDigitsAcc 0 (natToDigits n) =
      some (0 * 10 ^ (natToDigits n).length + n) :=
    parseDigitsAcc_natToDigitsGo (n + 1) n hlt 0
  simp [parseUnsigned, htake, hdrop, hemp, hparse]

/-- Digit strings parse back through the signed parser (no sign present). -/
lemma parseFloatChars_natToDigits (n : ℕ) :
    parseFloatChars (natToDigits n) = some ((n : ℚ)) := by
  have hlt : n < n + 1 := Nat.lt_succ_self n
  have hdig : ∀ c ∈ natToDigits n, ∃ d, d < 10 ∧ c = digitChar d :=
    natToDigitsGo_digits (n + 1) n hlt
  have hpu := parseUnsigned_natToDigits n
  cases h : natToDigits n with
  | nil => exact absurd h (natToDigitsGo_ne_nil (n + 1) n hlt)
  | cons c cs =>
      rw [h] at hdig hpu
      obtain ⟨d, hd, rfl⟩ := hdig c (List.mem_cons_self c cs)
      have hc1 : digitChar d ≠ '-' := (digitChar_not_special d hd).2.1
      have hc2 : digitChar d ≠ '+' := (digitChar_not_special d hd).2.2
      simp only [parseFloatChars, if_neg hc1, if_neg hc2]
      exact hpu

/-- The rendered integer parses back to itself (ParseFloat after
FormatFloat with zero decimals is the identity on integer values). -/
lemma parseFloatGo_intToString (z : ℤ) : parseFloatGo (intToString z) = (z : ℚ) := by
  by_cases hz : z < 0
  · have h2 : parseFloatGo (intToString z) =
        ((parseUnsigned (natToDigits z.natAbs)).map (fun q => -q)).getD 0 := by
      rw [intToString, if_pos hz]
      rfl
    rw [h2, parseUnsigned_natToDigits]
    simp only [Option.map_some', Option.getD_some]
    have hNA : (z.natAbs : ℤ) = -z := by omega
    have hq : ((z.natAbs : ℤ) : ℚ) = ((-z : ℤ) : ℚ) := by rw [hNA]
    rw [Int.cast_natCast, Int.cast_neg] at hq
    rw [hq]
    ring
  · have h2 : parseFloatGo (intToString z) =
        (parseFloatChars (natToDigits z.natAbs)).getD 0 := by
      rw [intToString, if_neg hz]
      rfl
    rw [h2, parseFloatChars_natToDigits]
    simp only [Option.getD_some]
    have hNA : (z.natAbs : ℤ) = z := by omega
    have hq : ((z.natAbs : ℤ) : ℚ) = ((z : ℤ) : ℚ) := by rw [hNA]
    rw [Int.cast_natCast] at hq
    exact hq

/-- Rounding an integer value returns that integer. -/
lemma roundEven_intCast (z : ℤ) : roundEven ((z : ℚ)) = z := by
  have hfl : ratFloor ((z : ℚ)) = z := by
    rw [ratFloor, Rat.num_intCast, Rat.den_intCast, Nat.cast_one, Int.fdiv_one]
  simp only [roundEven, hfl]
  norm_num

/-- The integer renderer never yields the empty string. -/
lemma intToString_ne_empty (z : ℤ) : intToString z ≠ "" := by
  have hne : natToDigits z.natAbs ≠ [] :=
    natToDigitsGo_ne_nil (z.natAbs + 1) z.natAbs (Nat.lt_succ_self _)
  rw [intToString]
  split
  · intro h
    have hd := congrArg String.data h
    simp only [String.data] at hd
    exact List.cons_ne_nil '-' _ hd
  · intro h
    have hd := congrArg String.data h
    simp only [String.data] at hd
    exact hne hd

/-- C7: `Ticks` delegates to the default tick generator and rewrites each
returned tick's label: an empty label passes through unchanged, a
non-empty label is reparsed as a float and reformatted with zero decimal
places ("3.0" becomes "3"), and the rewrite is the identity on
already-integer-valued labels (hence idempotent on them). -/
theorem rawTicks_Ticks_spec (defaultTicks : ℚ → ℚ → List Tick) (mn mx : ℚ) :
    rawTicks.Ticks defaultTicks mn mx = (defaultTicks mn mx).map processTick ∧
    (∀ t : Tick, t.Label = "" → processTick t = t) ∧
    (∀ v : ℚ, processTick (Tick.mk v "3.0") = Tick.mk v "3") ∧
    (∀ (z : ℤ) (v : ℚ),
      processTick (Tick.mk v (intToString z)) = Tick.mk v (intToString z)) := by
  refine ⟨rfl, ?_, ?_, ?_⟩
  · intro t ht
    rw [processTick, if_pos ht]
  · intro v
    have hne : (Tick.mk v "3.0").Label ≠ "" := by
      show ¬ ("3.0" = "")
      decide
    rw [processTick, if_neg hne]
    have hp : parseFloatGo "3.0" = 3 := by
      have h : parseFloatGo "3.0" = ((3 : ℕ) : ℚ) + ((0 : ℕ) : ℚ) / 10 ^ 1 := rfl
      rw [h]
      norm_num
    have hr : roundEven ((3 : ℚ)) = (3 : ℤ) := by exact_mod_cast roundEven_intCast 3
    rw [hp, formatFloat0, hr, show intToString (3 : ℤ) = "3" from by decide]
  · intro z v
    rw [processTick, if_neg (intToString_ne_empty z), parseFloatGo_intToString,
      formatFloat0, roundEven_intCast]

/-- Witness for C7: the label "3.0" becomes "3"; an empty label passes
through unchanged. -/
theorem rawTicks_Ticks_witness :
    processTick (Tick.mk 3 "3.0") = Tick.mk 3 "3" ∧
    processTick (Tick.mk 1 "") = Tick.mk 1 "" :=
  ⟨(rawTicks_Ticks_spec (fun _ _ => []) 0 0).2.2.1 3,
   (rawTicks_Ticks_spec (fun _ _ => []) 0 0).2.1 (Tick.mk 1 "") rfl⟩

/-- C10: a non-empty label that does not parse as a float ("abc") has its
parse error silently discarded: the zero value of the failed parse is
reformatted, rewriting the label to "0". -/
theorem Ticks_unparsable_label :
    parseFloatChars "abc".data = none ∧
    parseFloatGo "abc" = 0 ∧
    processTick (Tick.mk 0 "abc") = Tick.mk 0 "0" := by
  refine ⟨by rfl, by rfl, ?_⟩
  rw [processTick, if_neg (by decide)]
  have h0 : parseFloatGo "abc" = 0 := rfl
  have hr : roundEven ((0 : ℚ)) = (0 : ℤ) := by exact_mod_cast roundEven_intCast 0
  rw [h0, formatFloat0, hr, show intToString (0 : ℤ) = "0" from by decide]
